import Mathlib

/-!
# graphql-go: directive lists, directive locations and the OpenTracing tracer

A shallow embedding of `ast/directive.go` and `trace/trace.go`.

* Go pointers are `Option` values (`none` is the nil pointer); dereferencing
  nil is a `Panic`.
* The opentracing API is an external library.  Its spans are kept in a span
  store that records what the code asks of the API: the operation name, the
  `SetTag` calls, the `LogFields` calls and `Finish`.
-/

namespace GraphQL

/-- Run-time failures of the Go code that the embedding keeps track of. -/
inductive Panic where
  | nilDereference
  | indexOutOfRange
  deriving DecidableEq, Repr

/-! ## package ast -/

namespace Ast

/-- Modelled from the spec: the declaration of `errors.Location` is not among
the sources; it is the line/column pair the lexer tracks for every token. -/
structure Location where
  Line : Int
  Column : Int
  deriving DecidableEq, Repr

/-- Modelled from the spec: the declaration of `Ident` is not among the
sources; it is a name with the location it was read at.  `Get` reads only
the `Name` field. -/
structure Ident where
  Name : String
  Loc : Location
  deriving DecidableEq, Repr

/-- The struct `Directive`.  The type `A` stands for `ArgumentList`, which is
declared outside the sources and is never inspected here. -/
structure Directive (A : Type) where
  Name : Ident
  Arguments : A
  deriving DecidableEq, Repr

/-- The type `DirectiveList`, a slice of pointers to directives: `nil` is the
nil slice, `slice es` a slice with the entries `es`, and an entry `none` is a
nil pointer. -/
inductive DirectiveList (A : Type) where
  | nil
  | slice (es : List (Option (Directive A)))

/-- The entries a `range` loop visits: none for the nil slice. -/
def DirectiveList.entries {A : Type} : DirectiveList A → List (Option (Directive A))
  | .nil => []
  | .slice es => es

/-- The loop of `Get` over the remaining entries: the first entry whose
`Name.Name` equals `name` is returned, a nil entry panics when its name is
read, and running out of entries gives nil. -/
def getLoop {A : Type} (name : String) :
    List (Option (Directive A)) → Except Panic (Option (Directive A))
  | [] => .ok none
  | none :: _ => .error .nilDereference
  | some d :: rest => if d.Name.Name = name then .ok (some d) else getLoop name rest

/-- The method `DirectiveList.Get`. -/
def DirectiveList.Get {A : Type} (l : DirectiveList A) (name : String) :
    Except Panic (Option (Directive A)) :=
  getLoop name l.entries

/-- A list has no nil entries. -/
def DirectiveList.NoNil {A : Type} (l : DirectiveList A) : Prop :=
  ∀ e ∈ l.entries, e ≠ none

/-! ### Directive locations -/

def DirectiveLocationQuery : String := "QUERY"
def DirectiveLocationMutation : String := "MUTATION"
def DirectiveLocationSubscription : String := "SUBSCRIPTION"
def DirectiveLocationField : String := "FIELD"
def DirectiveLocationFragmentDefinition : String := "FRAGMENT_DEFINITION"
def DirectiveLocationFragmentSpread : String := "FRAGMENT_SPREAD"
def DirectiveLocationInlineFragment : String := "INLINE_FRAGMENT"
def DirectiveLocationVariableDefinition : String := "VARIABLE_DEFINITION"

def DirectiveLocationSchema : String := "SCHEMA"
def DirectiveLocationScalar : String := "SCALAR"
def DirectiveLocationObject : String := "OBJECT"
def DirectiveLocationFieldDefinition : String := "FIELD_DEFINITION"
def DirectiveLocationArgumentDefinition : String := "ARGUMENT_DEFINITION"
def DirectiveLocationInterface : String := "INTERFACE"
def DirectiveLocationUnion : String := "UNION"
def DirectiveLocationEnum : String := "ENUM"
def DirectiveLocationEnumValue : String := "ENUM_VALUE"
def DirectiveLocationInputObject : String := "INPUT_OBJECT"
def DirectiveLocationInputFieldDefiniton : String := "INPUT_FIELD_DEFINITION"

/-- The string values of the constants of type `ExecutableDirectiveLocation`,
in declaration order. -/
def executableDirectiveLocations : List String :=
  [DirectiveLocationQuery, DirectiveLocationMutation, DirectiveLocationSubscription,
   DirectiveLocationField, DirectiveLocationFragmentDefinition,
   DirectiveLocationFragmentSpread, DirectiveLocationInlineFragment,
   DirectiveLocationVariableDefinition]

/-- The string values of the constants of type `TypeSystemDirectiveLocation`,
in declaration order. -/
def typeSystemDirectiveLocations : List String :=
  [DirectiveLocationSchema, DirectiveLocationScalar, DirectiveLocationObject,
   DirectiveLocationFieldDefinition, DirectiveLocationArgumentDefinition,
   DirectiveLocationInterface, DirectiveLocationUnion, DirectiveLocationEnum,
   DirectiveLocationEnumValue, DirectiveLocationInputObject,
   DirectiveLocationInputFieldDefiniton]

end Ast

/-! ## package trace -/

namespace Trace

/-- A Go map with string keys, given by its entries in the order a `range`
loop visits them.  The keys of a map are pairwise distinct, and the order of
a `range` loop is unspecified: every permutation of the entries is the same
map. -/
abbrev GoMap (V : Type) := List (String × V)

/-- A value handed to `SetTag`: a string, a boolean, or an `interface{}` value
taken from an argument map. -/
inductive TagValue (V : Type) where
  | str (s : String)
  | bool (b : Bool)
  | val (v : V)
  deriving DecidableEq, Repr

/-- A field of a log record, as built by `log.Object(key, obj)`. -/
structure LogField (V : Type) where
  key : String
  object : GoMap V
  deriving DecidableEq, Repr

/-- What a span has been asked to record: its operation name, the parent span
it was started under, the `SetTag` calls and the `LogFields` calls (most
recent first), and whether `Finish` was called. -/
structure Span (V : Type) where
  operationName : String
  parent : Option Nat
  tags : List (String × TagValue V)
  logs : List (List (LogField V))
  finished : Bool
  deriving DecidableEq, Repr

/-- The tags of a span as a key-to-value map: the most recent `SetTag` call
for the key decides. -/
def Span.tag {V : Type} (s : Span V) (key : String) : Option (TagValue V) :=
  s.tags.lookup key

/-- The span store: the spans started so far; a span is known by its
position. -/
structure Tracing (V : Type) where
  spans : List (Span V)
  deriving DecidableEq, Repr

/-- The tag `key` of span `span`, if the span exists and the tag is set. -/
def Tracing.tag {V : Type} (st : Tracing V) (span : Nat) (key : String) :
    Option (TagValue V) :=
  (st.spans[span]?).bind (fun s => s.tag key)

/-- A `context.Context`: the span it carries, if any, and its other values. -/
structure Context where
  activeSpan : Option Nat
  values : List (String × String)
  deriving DecidableEq, Repr

/-- Apply `f` to span `span` of the store; a span that does not exist is left
alone. -/
def Tracing.update {V : Type} (st : Tracing V) (span : Nat) (f : Span V → Span V) :
    Tracing V :=
  match st.spans[span]? with
  | none => st
  | some s => ⟨st.spans.set span (f s)⟩

/-- The store `st'` differs from `st` at most in span `span`: the same number
of spans, and every other span as it was. -/
def Tracing.AgreeExcept {V : Type} (st st' : Tracing V) (span : Nat) : Prop :=
  st'.spans.length = st.spans.length ∧
  ∀ j : Nat, j = span ∨ st'.spans[j]? = st.spans[j]?

/-- The call `opentracing.StartSpanFromContext(ctx, operationName)`: a new
span, child of the span carried by `ctx`, and a context carrying the new span. -/
def StartSpanFromContext {V : Type} (ctx : Context) (operationName : String)
    (st : Tracing V) : (Nat × Context) × Tracing V :=
  let span := st.spans.length
  ((span, { ctx with activeSpan := some span }),
   ⟨st.spans ++ [{ operationName := operationName, parent := ctx.activeSpan,
                   tags := [], logs := [], finished := false }]⟩)

/-- The call `span.SetTag(key, value)`. -/
def SetTag {V : Type} (span : Nat) (key : String) (value : TagValue V)
    (st : Tracing V) : Tracing V :=
  st.update span (fun s => { s with tags := (key, value) :: s.tags })

/-- The call `span.LogFields(fields...)`. -/
def LogFields {V : Type} (span : Nat) (fields : List (LogField V))
    (st : Tracing V) : Tracing V :=
  st.update span (fun s => { s with logs := fields :: s.logs })

/-- The call `span.Finish()`. -/
def Finish {V : Type} (span : Nat) (st : Tracing V) : Tracing V :=
  st.update span (fun s => { s with finished := true })

/-- The call `ext.Error.Set(span, value)`, which sets the boolean tag `error`. -/
def extErrorSet {V : Type} (span : Nat) (value : Bool) (st : Tracing V) : Tracing V :=
  SetTag span "error" (.bool value) st

/-- The call `fmt.Sprintf(" (and %d more errors)", n)`: `%d` prints the
integer in decimal. -/
def sprintfMoreErrors (n : Int) : String :=
  " (and " ++ toString n ++ " more errors)"

/-- A finish function over a list of errors.  It returns nothing in Go; the
embedding returns the error list as the caller holds it after the call
together with the span store, or the panic that ended the call. -/
abbrev TraceQueryFinishFunc (Q V : Type) :=
  List (Option Q) → Tracing V → Except Panic (List (Option Q) × Tracing V)

/-- A finish function over one error pointer, with the same reading. -/
abbrev TraceFieldFinishFunc (Q V : Type) :=
  Option Q → Tracing V → Except Panic (Option Q × Tracing V)

/-- The finish function of validation has the type of the query one. -/
abbrev TraceValidationFinishFunc (Q V : Type) := TraceQueryFinishFunc Q V

/-- The struct `OpenTracingTracer`, which has no fields. -/
structure OpenTracingTracer where
  deriving DecidableEq, Repr

/-- The closure returned by `TraceQuery`, over the span it captured.  The type
`Q` is the struct `errors.QueryError` and `Error` the method `Error()` of
`*errors.QueryError`, both declared outside the sources. -/
def TraceQuery.finish {Q V : Type} (Error : Option Q → String) (span : Nat) :
    TraceQueryFinishFunc Q V :=
  fun errs st => do
    let st ←
      if errs.length > 0 then
        match errs[0]? with
        | none => throw Panic.indexOutOfRange
        | some e =>
          let msg := Error e
          let msg :=
            if errs.length > 1 then msg ++ sprintfMoreErrors ((errs.length : Int) - 1)
            else msg
          let st := extErrorSet span true st
          pure (SetTag span "graphql.error" (.str msg) st)
      else pure st
    pure (errs, Finish span st)

/-- The method `OpenTracingTracer.TraceQuery`; `vars` is its parameter
`variables`.  The type `T` stands for `*introspection.Type`. -/
def OpenTracingTracer.TraceQuery {Q V T : Type} (_t : OpenTracingTracer)
    (Error : Option Q → String) (ctx : Context) (queryString : String)
    (operationName : String) (vars : GoMap V) (_varTypes : GoMap T)
    (st : Tracing V) : (Context × TraceQueryFinishFunc Q V) × Tracing V :=
  let ((span, spanCtx), st) := StartSpanFromContext ctx "GraphQL request" st
  let st := SetTag span "graphql.query" (.str queryString) st
  let st :=
    if operationName ≠ "" then SetTag span "graphql.operationName" (.str operationName) st
    else st
  let st :=
    if vars.length ≠ 0 then LogFields span [⟨"graphql.variables", vars⟩] st
    else st
  ((spanCtx, TraceQuery.finish Error span), st)

/-- The function `noop`. -/
def noop {Q V : Type} : TraceFieldFinishFunc Q V :=
  fun err st => pure (err, st)

/-- The closure returned by `TraceField` for a non-trivial field, over the
span it captured. -/
def TraceField.finish {Q V : Type} (Error : Option Q → String) (span : Nat) :
    TraceFieldFinishFunc Q V :=
  fun err st =>
    let st :=
      if err.isSome then
        let st := extErrorSet span true st
        SetTag span "graphql.error" (.str (Error err)) st
      else st
    pure (err, Finish span st)

/-- The method `OpenTracingTracer.TraceField`. -/
def OpenTracingTracer.TraceField {Q V : Type} (_t : OpenTracingTracer)
    (Error : Option Q → String) (ctx : Context) (label typeName fieldName : String)
    (trivial : Bool) (args : GoMap V) (st : Tracing V) :
    (Context × TraceFieldFinishFunc Q V) × Tracing V :=
  if trivial then ((ctx, noop), st)
  else
    let ((span, spanCtx), st) := StartSpanFromContext ctx label st
    let st := SetTag span "graphql.type" (.str typeName) st
    let st := SetTag span "graphql.field" (.str fieldName) st
    let st := args.foldl
      (fun st entry => SetTag span ("graphql.args." ++ entry.1) (.val entry.2) st) st
    ((spanCtx, TraceField.finish Error span), st)

/-- The closure returned by `TraceValidation`, over the span it captured. -/
def TraceValidation.finish {Q V : Type} (Error : Option Q → String) (span : Nat) :
    TraceValidationFinishFunc Q V :=
  fun errs st => do
    let st ←
      if errs.length > 0 then
        match errs[0]? with
        | none => throw Panic.indexOutOfRange
        | some e =>
          let msg := Error e
          let msg :=
            if errs.length > 1 then msg ++ sprintfMoreErrors ((errs.length : Int) - 1)
            else msg
          let st := extErrorSet span true st
          pure (SetTag span "graphql.error" (.str msg) st)
      else pure st
    pure (errs, Finish span st)

/-- The method `OpenTracingTracer.TraceValidation`; the context carrying the
new span is dropped. -/
def OpenTracingTracer.TraceValidation {Q V : Type} (_t : OpenTracingTracer)
    (Error : Option Q → String) (ctx : Context) (st : Tracing V) :
    TraceValidationFinishFunc Q V × Tracing V :=
  let ((span, _), st) := StartSpanFromContext ctx "Validate Query" st
  (TraceValidation.finish Error span, st)

/-- The tag map the specification gives the span of a non-trivial field: the
type name, the field name, and every argument value under `graphql.args.`
followed by the argument name. -/
def fieldTagsSpec {V : Type} (typeName fieldName : String) (args : GoMap V)
    (key : String) (value : TagValue V) : Prop :=
  (key = "graphql.type" ∧ value = .str typeName) ∨
  (key = "graphql.field" ∧ value = .str fieldName) ∨
  ∃ (name : String) (v : V),
    (name, v) ∈ args ∧ key = "graphql.args." ++ name ∧ value = .val v

/-- The error summary in the words of the specification: nothing for an empty
list, the text of the only error for a list of one, and for a longer list the
text of the first error followed by ` (and k more errors)`, with `k` the
number of remaining errors in decimal. -/
def errorSummarySpec {Q : Type} (Error : Option Q → String) : List (Option Q) → Option String
  | [] => none
  | [e] => some (Error e)
  | e :: rest => some (Error e ++ " (and " ++ Nat.repr rest.length ++ " more errors)")

/-- The tags the specification expects a finish function to add for an error
summary, most recent first. -/
def summaryTagsSpec {V : Type} : Option String → List (String × TagValue V)
  | none => []
  | some msg => [("graphql.error", .str msg), ("error", .bool true)]

/-- A span after a finish function has run on it, as the specification has
it: the tags of the error summary added, and the span finished. -/
def Span.finishedWith {V : Type} (s : Span V) (summary : Option String) : Span V :=
  { s with tags := summaryTagsSpec summary ++ s.tags, finished := true }

end Trace

/-! ## Theorems: package ast -/

namespace Ast

theorem getLoop_noNil {A : Type} (name : String) (es : List (Option (Directive A)))
    (h : ∀ e ∈ es, e ≠ none) :
    (∃ d, getLoop name es = .ok (some d) ∧ d.Name.Name = name ∧
        ∃ i : Nat, es[i]? = some (some d) ∧
          ∀ j : Nat, j < i → ∀ d' : Directive A, es[j]? = some (some d') →
            d'.Name.Name ≠ name) ∨
    (getLoop name es = .ok none ∧ ∀ d, some d ∈ es → d.Name.Name ≠ name) := by
  induction es with
  | nil => right; simp [getLoop]
  | cons e rest ih =>
    have hrest : ∀ e ∈ rest, e ≠ none := fun x hx => h x (List.mem_cons_of_mem _ hx)
    cases e with
    | none => exact absurd rfl (h none (List.mem_cons_self _ _))
    | some d =>
      by_cases hd : d.Name.Name = name
      · left
        refine ⟨d, by simp [getLoop, hd], hd, 0, by simp, ?_⟩
        intro j hj; omega
      · rcases ih hrest with ⟨d', hget, hname, i, hi, hfirst⟩ | ⟨hget, hnone⟩
        · left
          refine ⟨d', by simp [getLoop, hd, hget], hname, i + 1, by simpa using hi, ?_⟩
          intro j hj d'' hj'
          cases j with
          | zero =>
            simp at hj'
            subst hj'
            exact hd
          | succ k =>
            exact hfirst k (by omega) d'' (by simpa using hj')
        · right
          refine ⟨by simp [getLoop, hd, hget], ?_⟩
          intro d' hd'
          rcases List.mem_cons.mp hd' with h1 | h1
          · cases h1; exact hd
          · exact hnone d' h1

/-- C1: for a directive list without nil entries that holds a directive named
`name`, `Get` returns a non-nil directive that is an entry of the list and is
named `name`; it is the first such entry. -/
theorem get_returns_named_entry {A : Type} (l : DirectiveList A) (name : String)
    (hl : l.NoNil) (hex : ∃ d, some d ∈ l.entries ∧ d.Name.Name = name) :
    ∃ d, l.Get name = .ok (some d) ∧ some d ∈ l.entries ∧ d.Name.Name = name ∧
      ∃ i : Nat, l.entries[i]? = some (some d) ∧
        ∀ j : Nat, j < i → ∀ d' : Directive A, l.entries[j]? = some (some d') →
          d'.Name.Name ≠ name := by
  rcases getLoop_noNil name l.entries hl with ⟨d, hget, hname, i, hi, hfirst⟩ | ⟨_, hnone⟩
  · exact ⟨d, hget, List.mem_iff_getElem?.mpr ⟨i, hi⟩, hname, i, hi, hfirst⟩
  · obtain ⟨d, hd, hn⟩ := hex
    exact absurd hn (hnone d hd)

theorem get_returns_named_entry_witness :
    let l : DirectiveList Unit :=
      .slice [some ⟨⟨"skip", ⟨1, 3⟩⟩, ()⟩, some ⟨⟨"include", ⟨1, 9⟩⟩, ()⟩,
            some ⟨⟨"include", ⟨2, 1⟩⟩, ()⟩]
    l.NoNil ∧ (∃ d, some d ∈ l.entries ∧ d.Name.Name = "include") ∧
    ∃ d, l.Get "include" = .ok (some d) ∧ some d ∈ l.entries ∧ d.Name.Name = "include" ∧
      ∃ i : Nat, l.entries[i]? = some (some d) ∧
        ∀ j : Nat, j < i → ∀ d' : Directive Unit, l.entries[j]? = some (some d') →
          d'.Name.Name ≠ "include" := by
  intro l
  have hl : l.NoNil := by
    intro e he
    simp [l, DirectiveList.entries] at he
    rcases he with rfl | rfl | rfl <;> simp
  have hex : ∃ d, some d ∈ l.entries ∧ d.Name.Name = "include" :=
    ⟨⟨⟨"include", ⟨1, 9⟩⟩, ()⟩, by simp [l, DirectiveList.entries], rfl⟩
  exact ⟨hl, hex, get_returns_named_entry l "include" hl hex⟩

/-- C2: for a directive list without nil entries, `Get` returns nil exactly
when no directive of the list is named `name`; the nil list and the empty list
give nil. -/
theorem get_nil_iff_absent {A : Type} (l : DirectiveList A) (name : String)
    (hl : l.NoNil) :
    (l.Get name = .ok none ↔ ∀ d, some d ∈ l.entries → d.Name.Name ≠ name) ∧
    (DirectiveList.nil : DirectiveList A).Get name = .ok none ∧
    (DirectiveList.slice [] : DirectiveList A).Get name = .ok none := by
  refine ⟨⟨?_, ?_⟩, rfl, rfl⟩
  · intro hget
    rcases getLoop_noNil name l.entries hl with ⟨d, hget', _⟩ | ⟨_, hnone⟩
    · rw [DirectiveList.Get, hget'] at hget
      cases hget
    · exact hnone
  · intro habs
    rcases getLoop_noNil name l.entries hl with ⟨d, _, hname, i, hi, _⟩ | ⟨hget, _⟩
    · exact absurd hname (habs d (List.mem_iff_getElem?.mpr ⟨i, hi⟩))
    · exact hget

theorem get_nil_iff_absent_witness :
    let l : DirectiveList Unit :=
      .slice [some ⟨⟨"skip", ⟨1, 3⟩⟩, ()⟩, some ⟨⟨"include", ⟨1, 9⟩⟩, ()⟩]
    l.NoNil ∧
    ((l.Get "deprecated" = .ok none ↔
        ∀ d, some d ∈ l.entries → d.Name.Name ≠ "deprecated") ∧
      (DirectiveList.nil : DirectiveList Unit).Get "deprecated" = .ok none ∧
      (DirectiveList.slice [] : DirectiveList Unit).Get "deprecated" = .ok none) := by
  intro l
  have hl : l.NoNil := by
    intro e he
    simp [l, DirectiveList.entries] at he
    rcases he with rfl | rfl <;> simp
  exact ⟨hl, get_nil_iff_absent l "deprecated" hl⟩

/-- C5: the eight executable directive locations and the eleven type-system
directive locations have pairwise distinct string values, so no string is both
an executable and a type-system location. -/
theorem directive_locations_distinct :
    executableDirectiveLocations.length = 8 ∧
    typeSystemDirectiveLocations.length = 11 ∧
    (executableDirectiveLocations ++ typeSystemDirectiveLocations).Nodup ∧
    ∀ s : String, ¬ (s ∈ executableDirectiveLocations ∧ s ∈ typeSystemDirectiveLocations) := by
  have hnd : (executableDirectiveLocations ++ typeSystemDirectiveLocations).Nodup := by
    decide
  refine ⟨rfl, rfl, hnd, ?_⟩
  rintro s ⟨h1, h2⟩
  exact (List.nodup_append.mp hnd).2.2 h1 h2

end Ast

/-! ## Theorems: package trace -/

namespace Trace

theorem update_spans_getElem? {V : Type} (st : Tracing V) (i j : Nat) (f : Span V → Span V) :
    (st.update i f).spans[j]? = if j = i then (st.spans[j]?).map f else st.spans[j]? := by
  unfold Tracing.update
  cases h : st.spans[i]? with
  | none =>
    by_cases hji : j = i
    · subst hji; simp [h]
    · simp [hji]
  | some s =>
    by_cases hji : j = i
    · subst hji
      have hlt : j < st.spans.length := by
        rcases List.getElem?_eq_some.mp h with ⟨hlt, _⟩
        exact hlt
      simp [h, hlt]
    · have hij : i ≠ j := fun e => hji e.symm
      simp [hji, List.getElem?_set_ne hij]

theorem update_spans_length {V : Type} (st : Tracing V) (i : Nat) (f : Span V → Span V) :
    (st.update i f).spans.length = st.spans.length := by
  unfold Tracing.update
  cases h : st.spans[i]? <;> simp

theorem update_append_last {V : Type} (l : List (Span V)) (s : Span V) (f : Span V → Span V) :
    (Tracing.mk (l ++ [s])).update l.length f = Tracing.mk (l ++ [f s]) := by
  unfold Tracing.update
  simp

theorem agreeExcept_refl {V : Type} (st : Tracing V) (span : Nat) :
    st.AgreeExcept st span :=
  ⟨rfl, fun _ => Or.inr rfl⟩

theorem agreeExcept_update {V : Type} (st st' : Tracing V) (span : Nat)
    (f : Span V → Span V) (h : st.AgreeExcept st' span) :
    st.AgreeExcept (st'.update span f) span := by
  refine ⟨by rw [update_spans_length]; exact h.1, ?_⟩
  intro j
  by_cases hj : j = span
  · exact Or.inl hj
  · right
    rw [update_spans_getElem?, if_neg hj]
    rcases h.2 j with h1 | h1
    · exact absurd h1 hj
    · exact h1

theorem traceQuery_finish_nil {Q V : Type} (Error : Option Q → String) (span : Nat)
    (st : Tracing V) :
    TraceQuery.finish Error span [] st = .ok ([], Finish span st) := rfl

theorem traceQuery_finish_cons {Q V : Type} (Error : Option Q → String) (span : Nat)
    (e : Option Q) (rest : List (Option Q)) (st : Tracing V) :
    TraceQuery.finish Error span (e :: rest) st =
      .ok (e :: rest, Finish span (SetTag span "graphql.error"
        (.str (if rest.length > 0 then Error e ++ sprintfMoreErrors (rest.length : Int)
               else Error e))
        (extErrorSet span true st))) := by
  by_cases h : rest.length > 0
  · simp [TraceQuery.finish, h, bind, Except.bind, pure, Except.pure]
  · have h0 : rest = [] := by
      cases rest with
      | nil => rfl
      | cons _ _ => simp at h
    subst h0
    simp [TraceQuery.finish, bind, Except.bind, pure, Except.pure]

theorem traceValidation_finish_eq {Q V : Type} (Error : Option Q → String) (span : Nat) :
    (TraceValidation.finish Error span : TraceQueryFinishFunc Q V) =
      TraceQuery.finish Error span := rfl

theorem traceQuery_finish_frame {Q V : Type} (Error : Option Q → String) (span : Nat)
    (errs : List (Option Q)) (st : Tracing V) :
    ∃ st' : Tracing V, TraceQuery.finish Error span errs st = .ok (errs, st') ∧
      st.AgreeExcept st' span := by
  cases errs with
  | nil =>
    exact ⟨_, traceQuery_finish_nil Error span st,
      agreeExcept_update _ _ _ _ (agreeExcept_refl st span)⟩
  | cons e rest =>
    refine ⟨_, traceQuery_finish_cons Error span e rest st, ?_⟩
    unfold Finish SetTag extErrorSet SetTag
    exact agreeExcept_update _ _ _ _ (agreeExcept_update _ _ _ _
      (agreeExcept_update _ _ _ _ (agreeExcept_refl st span)))

theorem traceField_finish_frame {Q V : Type} (Error : Option Q → String) (span : Nat)
    (err : Option Q) (st : Tracing V) :
    ∃ st' : Tracing V, TraceField.finish Error span err st = .ok (err, st') ∧
      st.AgreeExcept st' span := by
  cases err with
  | none =>
    refine ⟨_, rfl, ?_⟩
    exact agreeExcept_update _ _ _ _ (agreeExcept_refl st span)
  | some q =>
    refine ⟨_, rfl, ?_⟩
    simp only [Option.isSome_some, if_true]
    unfold Finish SetTag extErrorSet SetTag
    exact agreeExcept_update _ _ _ _ (agreeExcept_update _ _ _ _
      (agreeExcept_update _ _ _ _ (agreeExcept_refl st span)))

/-- C3: `TraceField` called with `trivial = true` returns the context it was
given, leaves the span store as it was (no span started, no tag set), and the
finish function it returns changes nothing, whatever error it is given. -/
theorem traceField_trivial_is_noop {Q V : Type} (t : OpenTracingTracer)
    (Error : Option Q → String) (ctx : Context) (label typeName fieldName : String)
    (args : GoMap V) (st : Tracing V) :
    (t.TraceField Error ctx label typeName fieldName true args st).1.1 = ctx ∧
    (t.TraceField Error ctx label typeName fieldName true args st).2 = st ∧
    ∀ (err : Option Q) (st' : Tracing V),
      (t.TraceField Error ctx label typeName fieldName true args st).1.2 err st' =
        .ok (err, st') := by
  refine ⟨rfl, rfl, ?_⟩
  intro err st'
  rfl

/-- C4: the finish functions returned by `TraceQuery`, `TraceValidation` and
`TraceField` end without a failure, hand back the errors they were given
unchanged, and change the span store at most in the span they captured. -/
theorem finish_funcs_keep_outcome {Q V T : Type} (t : OpenTracingTracer)
    (Error : Option Q → String) (ctx : Context) (queryString operationName : String)
    (vars : GoMap V) (varTypes : GoMap T) (label typeName fieldName : String)
    (trivial : Bool) (args : GoMap V) (st : Tracing V)
    (errs : List (Option Q)) (err : Option Q) (st' : Tracing V) :
    (∃ st'' : Tracing V,
      (t.TraceQuery Error ctx queryString operationName vars varTypes st).1.2 errs st' =
        .ok (errs, st'') ∧ st'.AgreeExcept st'' st.spans.length) ∧
    (∃ st'' : Tracing V,
      (t.TraceValidation Error ctx st).1 errs st' = .ok (errs, st'') ∧
        st'.AgreeExcept st'' st.spans.length) ∧
    (∃ st'' : Tracing V,
      (t.TraceField Error ctx label typeName fieldName trivial args st).1.2 err st' =
        .ok (err, st'') ∧ st'.AgreeExcept st'' st.spans.length) := by
  refine ⟨traceQuery_finish_frame Error _ errs st', ?_, ?_⟩
  · exact traceQuery_finish_frame Error _ errs st'
  · cases trivial with
    | true => exact ⟨st', rfl, agreeExcept_refl st' _⟩
    | false => exact traceField_finish_frame Error _ err st'

/-- C6: `TraceQuery` starts one span named `GraphQL request`; on it the tag
`graphql.query` is the query string, the tag `graphql.operationName` is the
operation name when that is not empty and is not set otherwise, and the
variables are logged under `graphql.variables` exactly when there is at least
one. -/
theorem traceQuery_records_request {Q V T : Type} (t : OpenTracingTracer)
    (Error : Option Q → String) (ctx : Context) (queryString operationName : String)
    (vars : GoMap V) (varTypes : GoMap T) (st : Tracing V) :
    ∃ sp : Span V,
      (t.TraceQuery Error ctx queryString operationName vars varTypes st).2.spans =
        st.spans ++ [sp] ∧
      (t.TraceQuery Error ctx queryString operationName vars varTypes st).1.1 =
        { ctx with activeSpan := some st.spans.length } ∧
      sp.operationName = "GraphQL request" ∧
      sp.finished = false ∧
      sp.tag "graphql.query" = some (.str queryString) ∧
      sp.tag "graphql.operationName" =
        (if operationName = "" then none else some (.str operationName)) ∧
      sp.logs = (if vars.length = 0 then [] else [[⟨"graphql.variables", vars⟩]]) := by
  by_cases hop : operationName = "" <;> by_cases hv : vars.length = 0 <;>
    simp [OpenTracingTracer.TraceQuery, StartSpanFromContext, SetTag, LogFields,
      update_append_last, Span.tag, List.lookup, hop, hv]

/-! ### Tags of a field span -/

theorem string_append_left_cancel (p a b : String) (h : p ++ a = p ++ b) : a = b := by
  have h1 : (p ++ a).data = (p ++ b).data := by rw [h]
  simp only [String.data_append] at h1
  exact String.ext (List.append_cancel_left h1)

theorem args_key_ne_type (name : String) : "graphql.args." ++ name ≠ "graphql.type" := by
  intro h
  have h1 : ("graphql.args." ++ name).length = "graphql.type".length := by rw [h]
  rw [String.length_append] at h1
  have h2 : "graphql.args.".length = 13 := by decide
  have h3 : "graphql.type".length = 12 := by decide
  omega

theorem args_key_ne_field (name : String) : "graphql.args." ++ name ≠ "graphql.field" := by
  intro h
  have h1 : ("graphql.args." ++ name).data = "graphql.field".data := by rw [h]
  simp only [String.data_append] at h1
  have h2 : ("graphql.args.".data ++ name.data).take 13 = ("graphql.field".data).take 13 := by
    rw [h1]
  have h3 : "graphql.args.".data.length = 13 := by decide
  rw [List.take_append_of_le_length (by omega)] at h2
  revert h2
  decide

theorem lookup_some_mem {β : Type} (l : List (String × β)) (k : String) (v : β)
    (h : l.lookup k = some v) : (k, v) ∈ l := by
  obtain ⟨l₁, l₂, rfl, _⟩ := List.lookup_eq_some_iff.mp h
  simp

theorem lookup_of_mem_nodup {β : Type} (l : List (String × β))
    (hnd : (l.map Prod.fst).Nodup) (k : String) (v : β) (h : (k, v) ∈ l) :
    l.lookup k = some v := by
  induction l with
  | nil => cases h
  | cons e rest ih =>
    obtain ⟨k', v'⟩ := e
    simp only [List.map_cons, List.nodup_cons] at hnd
    rcases List.mem_cons.mp h with h1 | h1
    · cases h1
      simp
    · have hne : k ≠ k' := by
        rintro rfl
        exact hnd.1 (List.mem_map.mpr ⟨(k, v), h1, rfl⟩)
      have hb : (k == k') = false := by simpa using hne
      rw [List.lookup_cons, hb]
      exact ih hnd.2 h1

/-- The `SetTag` calls of the argument loop, most recent first. -/
theorem foldl_setTag_args {V : Type} (l : List (Span V)) (args : GoMap V) (s : Span V) :
    args.foldl
        (fun st entry => SetTag l.length ("graphql.args." ++ entry.1) (.val entry.2) st)
        (Tracing.mk (l ++ [s])) =
      Tracing.mk (l ++ [{ s with tags :=
        (args.map (fun e => ("graphql.args." ++ e.1, TagValue.val e.2))).reverse ++ s.tags }]) := by
  induction args generalizing s with
  | nil => simp
  | cons e rest ih =>
    simp only [List.foldl_cons, SetTag, update_append_last]
    have := ih { s with tags := ("graphql.args." ++ e.1, TagValue.val e.2) :: s.tags }
    simp only [SetTag] at this
    rw [this]
    simp

theorem argTags_nodup {V : Type} (args : GoMap V) (hnd : (args.map Prod.fst).Nodup) :
    (((args.map (fun e => ("graphql.args." ++ e.1, TagValue.val e.2))).reverse).map
      Prod.fst).Nodup := by
  rw [List.map_reverse, List.nodup_reverse, List.map_map]
  have : (Prod.fst ∘ fun e : String × V => ("graphql.args." ++ e.1, TagValue.val e.2)) =
      (fun n => "graphql.args." ++ n) ∘ Prod.fst := rfl
  rw [this, ← List.map_map]
  exact hnd.map (fun a b h => string_append_left_cancel _ a b h)

theorem fieldTags_lookup {V : Type} (typeName fieldName : String) (args : GoMap V)
    (hnd : (args.map Prod.fst).Nodup) (k : String) (v : TagValue V) :
    List.lookup k
        ((args.map (fun e => ("graphql.args." ++ e.1, TagValue.val e.2))).reverse ++
          [("graphql.field", TagValue.str fieldName), ("graphql.type", TagValue.str typeName)])
      = some v ↔ fieldTagsSpec typeName fieldName args k v := by
  have hft : ("graphql.type" == "graphql.field") = false := by decide
  rw [List.lookup_append]
  constructor
  · intro h
    cases hA : List.lookup k
        ((args.map (fun e => ("graphql.args." ++ e.1, TagValue.val e.2))).reverse) with
    | some w =>
      rw [hA] at h
      simp only [Option.or_some, Option.some.injEq] at h
      subst h
      have hm := lookup_some_mem _ _ _ hA
      simp only [List.mem_reverse, List.mem_map] at hm
      obtain ⟨⟨name, value⟩, hmem, heq⟩ := hm
      simp only [Prod.mk.injEq] at heq
      exact Or.inr (Or.inr ⟨name, value, hmem, heq.1.symm, heq.2.symm⟩)
    | none =>
      rw [hA] at h
      simp only [Option.none_or] at h
      have hm := lookup_some_mem _ _ _ h
      simp only [List.mem_cons, Prod.mk.injEq, List.mem_singleton, List.not_mem_nil,
        or_false] at hm
      rcases hm with ⟨h1, h2⟩ | ⟨h1, h2⟩
      · exact Or.inr (Or.inl ⟨h1, h2⟩)
      · exact Or.inl ⟨h1, h2⟩
  · rintro (⟨rfl, rfl⟩ | ⟨rfl, rfl⟩ | ⟨name, value, hmem, rfl, rfl⟩)
    · have hA : List.lookup "graphql.type"
          ((args.map (fun e => ("graphql.args." ++ e.1, TagValue.val e.2))).reverse) = none := by
        rw [List.lookup_eq_none_iff]
        intro p hp
        simp only [List.mem_reverse, List.mem_map] at hp
        obtain ⟨e, _, rfl⟩ := hp
        simpa using fun h => args_key_ne_type e.1 h.symm
      rw [hA]
      simp [List.lookup_cons, hft]
    · have hA : List.lookup "graphql.field"
          ((args.map (fun e => ("graphql.args." ++ e.1, TagValue.val e.2))).reverse) = none := by
        rw [List.lookup_eq_none_iff]
        intro p hp
        simp only [List.mem_reverse, List.mem_map] at hp
        obtain ⟨e, _, rfl⟩ := hp
        simpa using fun h => args_key_ne_field e.1 h.symm
      rw [hA]
      simp
    · have hA := lookup_of_mem_nodup _ (argTags_nodup args hnd) ("graphql.args." ++ name)
        (TagValue.val value)
        (by
          simp only [List.mem_reverse, List.mem_map]
          exact ⟨(name, value), hmem, rfl⟩)
      rw [hA]
      simp

theorem traceField_spans {Q V : Type} (t : OpenTracingTracer)
    (Error : Option Q → String) (ctx : Context) (label typeName fieldName : String)
    (args : GoMap V) (st : Tracing V) :
    (t.TraceField Error ctx label typeName fieldName false args st).2.spans =
      st.spans ++ [Span.mk label ctx.activeSpan
        ((args.map (fun e => ("graphql.args." ++ e.1, TagValue.val e.2))).reverse ++
          [("graphql.field", TagValue.str fieldName), ("graphql.type", TagValue.str typeName)])
        [] false] := by
  simp only [OpenTracingTracer.TraceField, StartSpanFromContext, SetTag, update_append_last,
    Bool.false_eq_true, if_false]
  have := foldl_setTag_args st.spans args
    (Span.mk label ctx.activeSpan
      [("graphql.field", TagValue.str fieldName), ("graphql.type", TagValue.str typeName)]
      [] false)
  simp only [SetTag] at this
  rw [this]

/-- C7: `TraceField` called with `trivial = false` starts one span named
`label` whose tag map holds the type name under `graphql.type`, the field name
under `graphql.field`, every argument value under `graphql.args.` followed by
its name, and nothing else; the tag map is the same for every order in which
the arguments are visited, and no argument name gives the key of the type or
the field tag. -/
theorem traceField_tag_map {Q V : Type} (t : OpenTracingTracer)
    (Error : Option Q → String) (ctx : Context) (label typeName fieldName : String)
    (args : GoMap V) (st : Tracing V) (hnd : (args.map Prod.fst).Nodup) :
    ∃ sp : Span V,
      (t.TraceField Error ctx label typeName fieldName false args st).2.spans =
        st.spans ++ [sp] ∧
      sp.operationName = label ∧
      sp.tag "graphql.type" = some (.str typeName) ∧
      sp.tag "graphql.field" = some (.str fieldName) ∧
      (∀ (name : String) (v : V), (name, v) ∈ args →
        sp.tag ("graphql.args." ++ name) = some (.val v)) ∧
      (∀ (key : String) (value : TagValue V),
        sp.tag key = some value ↔ fieldTagsSpec typeName fieldName args key value) ∧
      (∀ args' : GoMap V, args'.Perm args →
        ∃ sp' : Span V,
          (t.TraceField Error ctx label typeName fieldName false args' st).2.spans =
            st.spans ++ [sp'] ∧
          ∀ key : String, sp'.tag key = sp.tag key) ∧
      (∀ name : String,
        "graphql.args." ++ name ≠ "graphql.type" ∧
        "graphql.args." ++ name ≠ "graphql.field") := by
  refine ⟨_, traceField_spans t Error ctx label typeName fieldName args st, rfl, ?_, ?_, ?_,
    ?_, ?_, ?_⟩
  · exact (fieldTags_lookup typeName fieldName args hnd _ _).mpr (Or.inl ⟨rfl, rfl⟩)
  · exact (fieldTags_lookup typeName fieldName args hnd _ _).mpr (Or.inr (Or.inl ⟨rfl, rfl⟩))
  · intro name v hmem
    exact (fieldTags_lookup typeName fieldName args hnd _ _).mpr
      (Or.inr (Or.inr ⟨name, v, hmem, rfl, rfl⟩))
  · intro key value
    exact fieldTags_lookup typeName fieldName args hnd key value
  · intro args' hperm
    refine ⟨_, traceField_spans t Error ctx label typeName fieldName args' st, ?_⟩
    intro key
    have hnd' : (args'.map Prod.fst).Nodup := ((hperm.map Prod.fst).nodup_iff).mpr hnd
    apply Option.ext
    intro value
    show List.lookup key _ = some value ↔ List.lookup key _ = some value
    rw [fieldTags_lookup typeName fieldName args' hnd' key value,
      fieldTags_lookup typeName fieldName args hnd key value]
    unfold fieldTagsSpec
    constructor
    · rintro (h | h | ⟨name, v, hmem, h1, h2⟩)
      · exact Or.inl h
      · exact Or.inr (Or.inl h)
      · exact Or.inr (Or.inr ⟨name, v, hperm.mem_iff.mp hmem, h1, h2⟩)
    · rintro (h | h | ⟨name, v, hmem, h1, h2⟩)
      · exact Or.inl h
      · exact Or.inr (Or.inl h)
      · exact Or.inr (Or.inr ⟨name, v, hperm.mem_iff.mpr hmem, h1, h2⟩)
  · intro name
    exact ⟨args_key_ne_type name, args_key_ne_field name⟩

theorem traceField_tag_map_witness :
    (([("id", 7), ("first", 2)] : GoMap Nat).map Prod.fst).Nodup ∧
    ∃ sp : Span Nat,
      (OpenTracingTracer.TraceField (Q := String) {} (fun _ => "boom") ⟨none, []⟩
          "Field Hero.friends" "Hero" "friends" false [("id", 7), ("first", 2)] ⟨[]⟩).2.spans =
        [] ++ [sp] ∧
      sp.operationName = "Field Hero.friends" ∧
      sp.tag "graphql.type" = some (.str "Hero") ∧
      sp.tag "graphql.field" = some (.str "friends") ∧
      (∀ (name : String) (v : Nat), (name, v) ∈ ([("id", 7), ("first", 2)] : GoMap Nat) →
        sp.tag ("graphql.args." ++ name) = some (.val v)) ∧
      (∀ (key : String) (value : TagValue Nat),
        sp.tag key = some value ↔
          fieldTagsSpec "Hero" "friends" [("id", 7), ("first", 2)] key value) ∧
      (∀ args' : GoMap Nat, args'.Perm [("id", 7), ("first", 2)] →
        ∃ sp' : Span Nat,
          (OpenTracingTracer.TraceField (Q := String) {} (fun _ => "boom") ⟨none, []⟩
              "Field Hero.friends" "Hero" "friends" false args' ⟨[]⟩).2.spans =
            [] ++ [sp'] ∧
          ∀ key : String, sp'.tag key = sp.tag key) ∧
      (∀ name : String,
        "graphql.args." ++ name ≠ "graphql.type" ∧
        "graphql.args." ++ name ≠ "graphql.field") :=
  ⟨by decide,
   traceField_tag_map (Q := String) {} (fun _ => "boom") ⟨none, []⟩
     "Field Hero.friends" "Hero" "friends" [("id", 7), ("first", 2)] ⟨[]⟩ (by decide)⟩

/-! ### The error summary of the finish functions -/

theorem sprintfMoreErrors_natCast (n : Nat) :
    sprintfMoreErrors (n : Int) = " (and " ++ Nat.repr n ++ " more errors)" := rfl

theorem traceQuery_finish_span {Q V : Type} (Error : Option Q → String) (span : Nat)
    (errs : List (Option Q)) (st : Tracing V) :
    ∃ st' : Tracing V, TraceQuery.finish Error span errs st = .ok (errs, st') ∧
      st'.spans[span]? =
        (st.spans[span]?).map (fun s => s.finishedWith (errorSummarySpec Error errs)) := by
  cases errs with
  | nil =>
    refine ⟨_, traceQuery_finish_nil Error span st, ?_⟩
    rw [Finish, update_spans_getElem?, if_pos rfl]
    cases st.spans[span]? <;> rfl
  | cons e rest =>
    refine ⟨_, traceQuery_finish_cons Error span e rest st, ?_⟩
    rw [Finish, update_spans_getElem?, if_pos rfl, SetTag, update_spans_getElem?, if_pos rfl,
      extErrorSet, SetTag, update_spans_getElem?, if_pos rfl]
    cases st.spans[span]? with
    | none => rfl
    | some s =>
      cases rest with
      | nil => rfl
      | cons e2 rest2 =>
        have hpos : (e2 :: rest2).length > 0 := by simp
        simp only [Option.map_some', hpos, if_true, sprintfMoreErrors_natCast,
          Span.finishedWith, errorSummarySpec, summaryTagsSpec, String.append_assoc,
          List.cons_append, List.nil_append]

theorem finishedWith_tags {V : Type} (st st' : Tracing V) (span : Nat)
    (summary : Option String)
    (h : st'.spans[span]? = (st.spans[span]?).map (fun s => s.finishedWith summary)) :
    (summary = none → ∀ key : String, st'.tag span key = st.tag span key) ∧
    (∀ msg : String, summary = some msg → (st.spans[span]?).isSome = true →
      st'.tag span "error" = some (.bool true) ∧
      st'.tag span "graphql.error" = some (.str msg)) := by
  have hne : ("error" == "graphql.error") = false := by decide
  unfold Tracing.tag
  rw [h]
  constructor
  · rintro rfl key
    cases st.spans[span]? <;> rfl
  · rintro msg rfl hsome
    cases hs : st.spans[span]? with
    | none => rw [hs] at hsome; cases hsome
    | some s =>
      simp [Span.tag, Span.finishedWith, summaryTagsSpec, List.lookup_cons, hne]

theorem traceQuery_finish_summary {Q V : Type} (Error : Option Q → String) (span : Nat)
    (errs : List (Option Q)) (st : Tracing V) :
    ∃ st' : Tracing V, TraceQuery.finish Error span errs st = .ok (errs, st') ∧
      st'.spans[span]? =
        (st.spans[span]?).map (fun s => s.finishedWith (errorSummarySpec Error errs)) ∧
      (errorSummarySpec Error errs = none →
        ∀ key : String, st'.tag span key = st.tag span key) ∧
      (∀ msg : String, errorSummarySpec Error errs = some msg →
        (st.spans[span]?).isSome = true →
        st'.tag span "error" = some (.bool true) ∧
        st'.tag span "graphql.error" = some (.str msg)) := by
  obtain ⟨st', hok, hspan⟩ := traceQuery_finish_span Error span errs st
  exact ⟨st', hok, hspan, finishedWith_tags st st' span _ hspan⟩

/-- C8: the finish functions returned by `TraceQuery` and by `TraceValidation`
are the same function of the span they captured, and both leave on that span
the error summary of the specification: for an empty error list no tag is
set; for a list of one the `error` flag is true and `graphql.error` is the
text of that error; for a list of `n > 1` the `error` flag is true and
`graphql.error` is the text of the first error followed by
` (and k more errors)` with `k = n - 1` in decimal. -/
theorem finish_funcs_record_error_summary {Q V T : Type} (t : OpenTracingTracer)
    (Error : Option Q → String) (ctx ctx' : Context) (queryString operationName : String)
    (vars : GoMap V) (varTypes : GoMap T) (stq stv : Tracing V)
    (errs : List (Option Q)) (st' : Tracing V) :
    (errorSummarySpec Error [] = none ∧
     (∀ e : Option Q, errorSummarySpec Error [e] = some (Error e)) ∧
     (∀ (e e2 : Option Q) (rest : List (Option Q)),
       errorSummarySpec Error (e :: e2 :: rest) =
         some (Error e ++ " (and " ++ Nat.repr ((e :: e2 :: rest).length - 1) ++
           " more errors)"))) ∧
    (t.TraceQuery Error ctx queryString operationName vars varTypes stq).1.2 =
      TraceQuery.finish Error stq.spans.length ∧
    (t.TraceValidation Error ctx' stv).1 = TraceValidation.finish Error stv.spans.length ∧
    (∀ span : Nat,
      (TraceValidation.finish Error span : TraceQueryFinishFunc Q V) =
        TraceQuery.finish Error span) ∧
    (∃ st'' : Tracing V,
      (t.TraceQuery Error ctx queryString operationName vars varTypes stq).1.2 errs st' =
        .ok (errs, st'') ∧
      st''.spans[stq.spans.length]? =
        (st'.spans[stq.spans.length]?).map
          (fun s => s.finishedWith (errorSummarySpec Error errs)) ∧
      (errorSummarySpec Error errs = none →
        ∀ key : String, st''.tag stq.spans.length key = st'.tag stq.spans.length key) ∧
      (∀ msg : String, errorSummarySpec Error errs = some msg →
        (st'.spans[stq.spans.length]?).isSome = true →
        st''.tag stq.spans.length "error" = some (.bool true) ∧
        st''.tag stq.spans.length "graphql.error" = some (.str msg))) ∧
    (∃ st'' : Tracing V,
      (t.TraceValidation Error ctx' stv).1 errs st' = .ok (errs, st'') ∧
      st''.spans[stv.spans.length]? =
        (st'.spans[stv.spans.length]?).map
          (fun s => s.finishedWith (errorSummarySpec Error errs)) ∧
      (errorSummarySpec Error errs = none →
        ∀ key : String, st''.tag stv.spans.length key = st'.tag stv.spans.length key) ∧
      (∀ msg : String, errorSummarySpec Error errs = some msg →
        (st'.spans[stv.spans.length]?).isSome = true →
        st''.tag stv.spans.length "error" = some (.bool true) ∧
        st''.tag stv.spans.length "graphql.error" = some (.str msg))) :=
  ⟨⟨rfl, fun _ => rfl, fun _ _ _ => rfl⟩, rfl, rfl, fun _ => rfl,
    traceQuery_finish_summary Error _ errs st',
    traceQuery_finish_summary Error _ errs st'⟩

end Trace

end GraphQL
